import Mathlib

/-!
# Verification of the spotify-wrapped aggregation pipeline

Shallow embedding of `spotify_dashboard.py`: the record normalizer, the
fact-table builder, the playlist flattener and the aggregation engine
(pandas `groupby`/`sum`/`sort_values`/`head`/`resample`), with theorems
checking the specification's claims against the embedded code.

Conventions:
* machine floats (`ms_played / 60000`) are modelled as exact rationals `ℚ`;
* a pandas `DataFrame` of play events is a `List PlayRow` plus per-column
  presence flags (a column can be present while all its values are null,
  e.g. when the JSON carries explicit `null`s, so presence is independent
  of the values);
* operations that can raise a Python exception return `Except String _`.
-/

unseal Rat.add Rat.inv Rat.mul

/-- Lexicographic order on char lists, the order pandas uses on string
group keys (`groupby(..., sort=True)`). -/
def charListLt : List Char → List Char → Bool
  | [], [] => false
  | [], _ :: _ => true
  | _ :: _, [] => false
  | a :: as, b :: bs => if a < b then true else if b < a then false else charListLt as bs

/-- String comparison by code points, as Python compares `str`. -/
def strLt (a b : String) : Bool := charListLt a.data b.data

/-- A JSON value, as produced by `json.load` for the playlist files.
Objects are association lists over string keys (Python dicts from
`json.load` never carry duplicate keys, but the model does not rely on it
unless stated). -/
inductive JValue where
  | null
  | bool (b : Bool)
  | num (n : Int)
  | str (s : String)
  | arr (elems : List JValue)
  | obj (fields : List (String × JValue))

/-- A raw streaming-history record, one element of a
`Streaming_History*.json` array. `ts` is the raw timestamp string;
`ms_played` is required (pipeline precondition); the categorical fields
are optional (`None` models both an absent key and a JSON `null`). -/
structure RawRecord where
  ts : String
  ms_played : Int
  artist : Option String
  track : Option String
  episodeShow : Option String
  audiobookTitle : Option String
  platform : Option String
  shuffle : Option Bool
deriving DecidableEq

/-- One row of the fact table built at the top of the script:
`ts` is the parsed timestamp in minutes since the epoch,
`minutes` is `ms_played / 60000`. -/
structure PlayRow where
  ts : Nat
  minutes : ℚ
  artist : Option String
  track : Option String
  episodeShow : Option String
  audiobookTitle : Option String
  platform : Option String
  shuffle : Option Bool
deriving DecidableEq

/-- The streaming fact table: rows plus column-presence flags for the
optional categorical columns (pandas keeps a column that exists in the
source JSON even when every value in it is null). -/
structure Table where
  rows : List PlayRow
  hasArtistCol : Bool
  hasTrackCol : Bool
  hasEpisodeCol : Bool
  hasAudiobookCol : Bool
  hasPlatformCol : Bool
  hasShuffleCol : Bool
deriving DecidableEq

/-! ## Timestamp parsing (`pd.to_datetime`)

`pd.to_datetime(streaming_df["ts"])` parses every string of the column
and raises a `ValueError` as soon as one string does not parse
(`errors="raise"` is the default). We model the parser for the export's
timestamp shape `YYYY-MM-DDTHH:MM:SSZ`; the epoch conversion uses a
simplified uniform calendar (31-day months), which preserves parse
success/failure and the ordering of timestamps, the only aspects the
claims depend on. -/

/-- Split a char list at every occurrence of the separator. -/
def splitOnChar (c : Char) : List Char → List (List Char)
  | [] => [[]]
  | x :: xs =>
    match splitOnChar c xs with
    | [] => [[x]]
    | g :: gs => if x = c then [] :: g :: gs else (x :: g) :: gs

/-- Parse a decimal field of exactly `len` digits. -/
def parseDigits (len : Nat) (l : List Char) : Option Nat :=
  if l.length = len ∧ l.all Char.isDigit then
    some (l.foldl (fun a c => a * 10 + (c.toNat - 48)) 0)
  else none

/-- `SS` followed by the `Z` zone marker. -/
def secondsField : List Char → Bool
  | [s1, s2, z] => s1.isDigit && s2.isDigit && z = 'Z'
  | _ => false

/-- Parse `YYYY-MM-DDTHH:MM:SSZ` into minutes since a (simplified) epoch;
`none` on any malformed input, mirroring a `ValueError` from
`pd.to_datetime`. -/
def parseTS (s : String) : Option Nat :=
  match splitOnChar 'T' s.data with
  | [d, t] =>
    match splitOnChar '-' d, splitOnChar ':' t with
    | [y, mo, da], [h, mi, sec] =>
      match parseDigits 4 y, parseDigits 2 mo, parseDigits 2 da,
            parseDigits 2 h, parseDigits 2 mi with
      | some yn, some mon, some dan, some hn, some minn =>
        if 1 ≤ mon ∧ mon ≤ 12 ∧ 1 ≤ dan ∧ dan ≤ 31 ∧ hn ≤ 23 ∧ minn ≤ 59 ∧
            secondsField sec = true then
          some ((((yn * 12 + (mon - 1)) * 31 + (dan - 1)) * 24 + hn) * 60 + minn)
        else none
      | _, _, _, _, _ => none
    | _, _ => none
  | _ => none

/-- Fact table builder (lines 23–24 of the script):
`streaming_df["ts"] = pd.to_datetime(streaming_df["ts"])` followed by
`streaming_df["minutes_played"] = streaming_df["ms_played"] / 60000`.
A single unparseable timestamp raises, aborting the run. -/
def buildFactTable : List RawRecord → Except String (List PlayRow)
  | [] => .ok []
  | r :: rs =>
    match parseTS r.ts with
    | none => .error ("ValueError: time data " ++ r.ts ++ " does not parse")
    | some t => do
      let rest ← buildFactTable rs
      .ok ({ ts := t, minutes := (r.ms_played : ℚ) / 60000,
             artist := r.artist, track := r.track,
             episodeShow := r.episodeShow, audiobookTitle := r.audiobookTitle,
             platform := r.platform, shuffle := r.shuffle } :: rest)

/-- The fact-table builder's minutes formula, `ms_played / 60000`. -/
def minutesOf (r : RawRecord) : ℚ := (r.ms_played : ℚ) / 60000

/-! ## Record normalizer for streaming history (lines 20–22)

`dfs = [pd.read_json(f) for f in streaming_files]` followed by
`pd.concat(dfs, ignore_index=True)`. `pd.concat` raises
`ValueError("No objects to concatenate")` on an empty list. -/

/-- Concatenate the per-file record lists; raises when no file matched the
`Streaming_History*.json` glob. -/
def concatStreaming (files : List (List RawRecord)) : Except String (List RawRecord) :=
  if files.isEmpty then .error "ValueError: No objects to concatenate"
  else .ok files.flatten

/-! ## Aggregation engine: groupby / sum / sort_values / head

`streaming_df.groupby(col)["minutes_played"].sum()` groups the rows by the
column with pandas defaults: rows whose key is null are DROPPED
(`dropna=True`) and the resulting index is sorted ascending by key
(`sort=True`). `.sort_values(ascending=False)` argsorts the values with
numpy's default `kind='quicksort'` (introsort) and reverses the order;
`.head(10)` takes the first ten entries. Numpy's introsort is NOT stable
in general: it only degenerates to a stable insertion sort below its
small-array threshold, so the relative order of equal values is an
implementation detail. An executable model must still pick one concrete
tie order; `sortByValAsc` picks the small-array insertion-sort path,
which is exact for the tiny arrays evaluated concretely below and
implementation-defined beyond. Theorems quantifying over all tables rely
only on properties every correct argsort gives — the multiset of entries,
non-increasing values, and the output being a function of the grouped
series — never on the model's tie order. -/

/-- Add one observation to a key-sorted group accumulator: find the key's
group (or insert the key at its sorted position) and add the value. -/
def addToGroups (k : String) (v : ℚ) : List (String × ℚ) → List (String × ℚ)
  | [] => [(k, v)]
  | (k', v') :: rest =>
    if k = k' then (k', v' + v) :: rest
    else if strLt k k' then (k, v) :: (k', v') :: rest
    else (k', v') :: addToGroups k v rest

/-- One `groupby` step: a row with a null key is dropped, any other row's
value is added to its key's group. -/
def groupStep (key : PlayRow → Option String) (val : PlayRow → ℚ)
    (acc : List (String × ℚ)) (r : PlayRow) : List (String × ℚ) :=
  match key r with
  | none => acc
  | some k => addToGroups k (val r) acc

/-- `groupby(key)[val].sum()` with pandas defaults: null keys dropped,
groups keyed by the sorted distinct keys. -/
def groupbySum (key : PlayRow → Option String) (val : PlayRow → ℚ)
    (rows : List PlayRow) : List (String × ℚ) :=
  rows.foldl (groupStep key val) []

/-- Insert into a value-ascending list, before any equal value. This is
numpy's small-array insertion-sort path; above the threshold introsort
makes no promise about equal values, so proofs about the program must not
depend on where this inserts among ties. -/
def insertByVal (x : String × ℚ) : List (String × ℚ) → List (String × ℚ)
  | [] => [x]
  | y :: ys => if x.2 ≤ y.2 then x :: y :: ys else y :: insertByVal x ys

/-- Ascending sort by value: one concrete realization of numpy's argsort.
Its tie order (insertion order preserved) is exact only below numpy's
small-array threshold; program-level theorems use it only for the
tie-order-independent facts (sortedness, membership, length). -/
def sortByValAsc (l : List (String × ℚ)) : List (String × ℚ) :=
  l.foldr insertByVal []

/-- `sort_values(ascending=False)`: pandas argsorts ascending (unstable
`kind='quicksort'`, here realized by `sortByValAsc`) and reverses the
resulting order. -/
def sortValuesDesc (l : List (String × ℚ)) : List (String × ℚ) :=
  (sortByValAsc l).reverse

/-- `groupby(key)["minutes_played"].sum().sort_values(ascending=False).head(10)`,
the shape shared by top-artists, top-tracks, top-podcasts and
top-audiobooks. -/
def topKByGroup (key : PlayRow → Option String) (val : PlayRow → ℚ)
    (rows : List PlayRow) : List (String × ℚ) :=
  (sortValuesDesc (groupbySum key val rows)).take 10

/-! ## Playlist flattener (lines 41–57)

For each playlist dict: metadata = `{name, lastModifiedDate,
collaborators}` via `.get` (null when absent); `items = playlist.get("items", [])`,
a single dict is wrapped in a list, any other non-list becomes `[]`;
for each dict-shaped item, `track_data = item.get("track", {})` and the
row is `{**playlist_meta, **track_data}`. A present but non-mapping
`track` value makes the `**`-merge raise `TypeError`. Non-dict items are
skipped silently. -/

/-- A playlist object: a Python dict from `json.load`. -/
abbrev Playlist := List (String × JValue)

/-- `d.get(k)`: the value under `k`, or Python `None` (JSON null) when
the key is absent. -/
def pyGet (d : List (String × JValue)) (k : String) : JValue :=
  (List.lookup k d).getD .null

/-- `playlist_meta = {"name": ..., "lastModifiedDate": ..., "collaborators": ...}`. -/
def playlistMeta (p : Playlist) : List (String × JValue) :=
  [("name", pyGet p "name"),
   ("lastModifiedDate", pyGet p "lastModifiedDate"),
   ("collaborators", pyGet p "collaborators")]

/-- `items = playlist.get("items", [])`, then
`if isinstance(items, dict): items = [items]`
`elif not isinstance(items, list): items = []`. -/
def normItems (p : Playlist) : List JValue :=
  match List.lookup "items" p with
  | none => []
  | some v =>
    match v with
    | .arr xs => xs
    | .obj fs => [.obj fs]
    | _ => []

/-- `{**a, **b}` on Python dicts: keys of `a` in order with `b`'s value
where `b` has the key, then keys of `b` not in `a`, in `b`'s order. -/
def mergeDicts (a b : List (String × JValue)) : List (String × JValue) :=
  a.map (fun kv => (kv.1, (List.lookup kv.1 b).getD kv.2)) ++
    b.filter (fun kv => (List.lookup kv.1 a).isNone)

/-- `track_data = item.get("track", {})` followed by the `**`-splice: a
present non-mapping `track` value (including JSON `null`) raises
`TypeError` when spliced. -/
def trackFieldsE (fs : List (String × JValue)) : Except String (List (String × JValue)) :=
  match List.lookup "track" fs with
  | none => .ok []
  | some (.obj tfs) => .ok tfs
  | some _ => .error "TypeError: track value is not a mapping"

/-- The inner `for item in items` loop: dict-shaped items produce one
merged row each, other items are skipped. -/
def itemRows (meta : List (String × JValue)) :
    List JValue → Except String (List (List (String × JValue)))
  | [] => .ok []
  | .obj fs :: rest => do
    let tf ← trackFieldsE fs
    let rs ← itemRows meta rest
    .ok (mergeDicts meta tf :: rs)
  | _ :: rest => itemRows meta rest

/-- `playlist_records`: the full flattener over the playlist list. -/
def playlistRecords : List Playlist → Except String (List (List (String × JValue)))
  | [] => .ok []
  | p :: ps => do
    let rs ← itemRows (playlistMeta p) (normItems p)
    let rest ← playlistRecords ps
    .ok (rs ++ rest)

/-- `True` exactly for the items the loop turns into a row
(`isinstance(item, dict)`). -/
def isObjItem : JValue → Bool
  | .obj _ => true
  | _ => false

/-- `True` when a dict-shaped item's `track` value can be `**`-spliced:
absent or itself a mapping. -/
def itemOK : JValue → Bool
  | .obj fs =>
    match List.lookup "track" fs with
    | none => true
    | some (.obj _) => true
    | some _ => false
  | _ => true

/-! ## Time resampling (lines 94–101)

`streaming_df.set_index("ts")` then
`streaming_df["minutes_played"].resample("D").sum()`: buckets every
calendar day from the floor of the earliest timestamp to the floor of the
latest, one entry per day, summing `minutes_played` over the rows of the
day (an empty bucket sums to 0). Timestamps are minutes since the epoch,
so a calendar day is `ts / 1440`. -/

/-- Calendar-day index of a timestamp in minutes. -/
def dayOf (t : Nat) : Nat := t / 1440

/-- Day of the earliest timestamp (0 on an empty table, unused there). -/
def minDay : List PlayRow → Nat
  | [] => 0
  | r :: rs => (rs.map (fun x => dayOf x.ts)).foldl Nat.min (dayOf r.ts)

/-- Day of the latest timestamp. -/
def maxDay : List PlayRow → Nat
  | [] => 0
  | r :: rs => (rs.map (fun x => dayOf x.ts)).foldl Nat.max (dayOf r.ts)

/-- Sum of `minutes_played` over the rows of one day bucket. -/
def daySum (rows : List PlayRow) (d : Nat) : ℚ :=
  ((rows.filter (fun x => dayOf x.ts = d)).map (fun x => x.minutes)).sum

/-- `resample("D").sum()`: one `(day, sum)` entry per calendar day from
the earliest to the latest timestamp, zero-filled. -/
def dailyMinutes (rows : List PlayRow) : List (Nat × ℚ) :=
  match rows with
  | [] => []
  | _ :: _ =>
    (List.range (maxDay rows - minDay rows + 1)).map
      (fun i => (minDay rows + i, daySum rows (minDay rows + i)))

/-! ## Report sections and the run (lines 62–165)

Each section guards its aggregation on column presence (and, for
podcasts/audiobooks, on the column having any non-null value) before
touching the column; an unguarded access to a missing column would raise
`KeyError`, which we model as an `Except.error`. A guarded-out section
renders its "no data" branch, modelled as `none`. -/

/-- The search-query table: the `searchQuery` column (each row's value may
be missing) plus a presence flag for the column itself. -/
structure SearchTable where
  rows : List (Option String)
  hasQueryCol : Bool

/-- Column access on the streaming table: raises `KeyError` when the
column is absent, as pandas does. -/
def groupbySumCol (t : Table) (flag : Bool) (key : PlayRow → Option String) :
    Except String (List (String × ℚ)) :=
  if flag then .ok (topKByGroup key (fun r => r.minutes) t.rows)
  else .error "KeyError"

/-- `value_counts().head(10)` over the `searchQuery` column: frequency per
distinct non-null value, sorted descending by count. -/
def topSearchCounts (rows : List (Option String)) : List (String × ℚ) :=
  (sortValuesDesc (rows.foldl (fun acc q =>
    match q with
    | none => acc
    | some s => addToGroups s 1 acc) [])).take 10

/-- The engine's outputs handed to the presentation layer; `none` is the
"section not rendered / no data" case. -/
structure Reports where
  topArtists : Option (List (String × ℚ))
  topTracks : Option (List (String × ℚ))
  topPodcasts : Option (List (String × ℚ))
  topAudiobooks : Option (List (String × ℚ))
  topSearches : Option (List (String × ℚ))
  platformMinutes : Option (List (String × ℚ))

/-- `episode_show_name in columns and streaming_df["episode_show_name"].notna().any()`. -/
def episodeAvail (t : Table) : Bool :=
  t.hasEpisodeCol && t.rows.any (fun r => r.episodeShow.isSome)

/-- `audiobook_title in columns and streaming_df["audiobook_title"].notna().any()`. -/
def audiobookAvail (t : Table) : Bool :=
  t.hasAudiobookCol && t.rows.any (fun r => r.audiobookTitle.isSome)

/-- `not searches.empty and "searchQuery" in searches.columns`. -/
def searchAvail (s : SearchTable) : Bool :=
  !s.rows.isEmpty && s.hasQueryCol

/-- Section 3, top artists: `if "master_metadata_album_artist_name" in
streaming_df.columns:` then the grouped top-10; no else branch (nothing
rendered). -/
def artistsSection (t : Table) : Except String (Option (List (String × ℚ))) :=
  if t.hasArtistCol then (groupbySumCol t t.hasArtistCol (fun r => r.artist)).map some
  else pure none

/-- Section 3, top tracks, same guard shape on the track-name column. -/
def tracksSection (t : Table) : Except String (Option (List (String × ℚ))) :=
  if t.hasTrackCol then (groupbySumCol t t.hasTrackCol (fun r => r.track)).map some
  else pure none

/-- Section 5, top podcasts: guarded on the column existing AND having a
non-null value; the else branch writes "No podcasts found." (`none`). -/
def podcastsSection (t : Table) : Except String (Option (List (String × ℚ))) :=
  if episodeAvail t then
    (groupbySumCol t t.hasEpisodeCol (fun r => r.episodeShow)).map some
  else pure none

/-- Section 6, top audiobooks, same guard shape as podcasts. -/
def audiobooksSection (t : Table) : Except String (Option (List (String × ℚ))) :=
  if audiobookAvail t then
    (groupbySumCol t t.hasAudiobookCol (fun r => r.audiobookTitle)).map some
  else pure none

/-- Section 8, top search queries: guarded on the frame being non-empty
and the column present; else "No search queries found." (`none`). -/
def searchesSection (s : SearchTable) : Except String (Option (List (String × ℚ))) :=
  if searchAvail s then pure (some (topSearchCounts s.rows)) else pure none

/-- Section 9, minutes by platform, guarded on the platform column. -/
def platformSection (t : Table) : Except String (Option (List (String × ℚ))) :=
  if t.hasPlatformCol then
    (groupbySumCol t t.hasPlatformCol (fun r => r.platform)).map some
  else pure none

/-- Sections 3–9 of the script: each aggregation behind its guard. -/
def runReports (t : Table) (s : SearchTable) : Except String Reports := do
  let ta ← artistsSection t
  let tt ← tracksSection t
  let tp ← podcastsSection t
  let tb ← audiobooksSection t
  let ts ← searchesSection s
  let pm ← platformSection t
  pure { topArtists := ta, topTracks := tt, topPodcasts := tp,
         topAudiobooks := tb, topSearches := ts, platformMinutes := pm }

/-- The whole run: concatenate the streaming files (line 22), build the
fact table (lines 23–24), then produce the reports. The column flags come
with the input, standing for which keys occur in the source JSON. -/
def runPipeline (streamingFiles : List (List RawRecord)) (playlists : List Playlist)
    (mkTable : List PlayRow → Table) (s : SearchTable) : Except String Reports := do
  let raw ← concatStreaming streamingFiles
  let tbl ← buildFactTable raw
  let _precs ← playlistRecords playlists
  runReports (mkTable tbl) s

/-! ## RankWithinGroup (per-year top-10 ranking) -/

/-- Modelled from the spec: `RankWithinGroup(table, group_column,
rank_column, secondary_group_column)` is described in the spec but the
per-year ranking is not present in `src/spotify_dashboard.py`. A row of
the table is `(artist, year, minutes)`; `rankBefore vals i j` says row `i`
is ranked before row `j` for a fixed year's value list `vals`: strictly
larger rank-column value, or an equal value and an earlier position
(first-seen tie-break). -/
def rankBefore (vals : List ℚ) (i j : Fin vals.length) : Prop :=
  vals.get j < vals.get i ∨ (vals.get i = vals.get j ∧ i < j)

instance (vals : List ℚ) (i j : Fin vals.length) : Decidable (rankBefore vals i j) := by
  unfold rankBefore; infer_instance

/-- Modelled from the spec: the rank assigned to row `i` is one more than
the number of rows ranked before it. -/
def rankOf (vals : List ℚ) (i : Fin vals.length) : Nat :=
  1 + (Finset.univ.filter (fun j => rankBefore vals j i)).card

/-- Modelled from the spec: the rank-column values of the rows of one
value of the secondary group column (one year), in input order. -/
def yearVals (table : List (String × Int × ℚ)) (year : Int) : List ℚ :=
  (table.filter (fun r => r.2.1 = year)).map (fun r => r.2.2)

/-- Modelled from the spec: the ranks `RankWithinGroup` assigns to one
year's rows, in input order. -/
def rankWithinGroup (table : List (String × Int × ℚ)) (year : Int) : List Nat :=
  (List.finRange (yearVals table year).length).map (rankOf (yearVals table year))

/-! ## Sample rows used by concrete checks -/

/-- A play-event row with the given timestamp, minutes and artist, all
other categorical fields null. -/
def mkRow (t : Nat) (m : ℚ) (a : Option String) : PlayRow :=
  { ts := t, minutes := m, artist := a, track := none, episodeShow := none,
    audiobookTitle := none, platform := none, shuffle := none }


/-! ## Lemmas about the grouping accumulator -/

lemma addToGroups_sum (k : String) (v : ℚ) (acc : List (String × ℚ)) :
    ((addToGroups k v acc).map (fun kv => kv.2)).sum
      = (acc.map (fun kv => kv.2)).sum + v := by
  induction acc with
  | nil => simp [addToGroups]
  | cons x rest ih =>
    obtain ⟨k', v'⟩ := x
    simp only [addToGroups]
    by_cases h1 : k = k'
    · rw [if_pos h1]
      simp only [List.map_cons, List.sum_cons]
      ring
    · rw [if_neg h1]
      by_cases h2 : strLt k k' = true
      · rw [if_pos h2]
        simp only [List.map_cons, List.sum_cons]
        ring
      · rw [if_neg h2]
        simp only [List.map_cons, List.sum_cons, ih]
        ring

lemma mem_addToGroups_key {kv : String × ℚ} (k : String) (v : ℚ)
    (acc : List (String × ℚ)) (h : kv ∈ addToGroups k v acc) :
    kv.1 = k ∨ ∃ p ∈ acc, p.1 = kv.1 := by
  induction acc with
  | nil =>
    simp only [addToGroups, List.mem_singleton] at h
    subst h; exact Or.inl rfl
  | cons x rest ih =>
    obtain ⟨k', v'⟩ := x
    simp only [addToGroups] at h
    by_cases h1 : k = k'
    · rw [if_pos h1] at h
      rcases List.mem_cons.mp h with rfl | hmem
      · exact Or.inl h1.symm
      · exact Or.inr ⟨kv, List.mem_cons_of_mem _ hmem, rfl⟩
    · rw [if_neg h1] at h
      by_cases h2 : strLt k k' = true
      · rw [if_pos h2] at h
        rcases List.mem_cons.mp h with rfl | hmem
        · exact Or.inl rfl
        · exact Or.inr ⟨kv, hmem, rfl⟩
      · rw [if_neg h2] at h
        rcases List.mem_cons.mp h with rfl | hmem
        · exact Or.inr ⟨(k', v'), List.mem_cons_self _ _, rfl⟩
        · rcases ih hmem with hk | ⟨p, hp, he⟩
          · exact Or.inl hk
          · exact Or.inr ⟨p, List.mem_cons_of_mem _ hp, he⟩

lemma groupbySum_go_sum (key : PlayRow → Option String) (val : PlayRow → ℚ)
    (rows : List PlayRow) (acc : List (String × ℚ)) :
    ((rows.foldl (groupStep key val) acc).map (fun kv => kv.2)).sum
      = (acc.map (fun kv => kv.2)).sum
          + ((rows.filter (fun r => (key r).isSome)).map val).sum := by
  induction rows generalizing acc with
  | nil => simp
  | cons r rs ih =>
    rw [List.foldl_cons, ih]
    cases hk : key r with
    | none => simp [List.filter_cons, hk, groupStep]
    | some k =>
      simp only [groupStep, hk, addToGroups_sum, List.filter_cons, Option.isSome_some,
        if_true, List.map_cons, List.sum_cons]
      ring

lemma groupbySum_go_keys (key : PlayRow → Option String) (val : PlayRow → ℚ)
    (rows : List PlayRow) (acc : List (String × ℚ)) {kv : String × ℚ}
    (h : kv ∈ rows.foldl (groupStep key val) acc) :
    (∃ p ∈ acc, p.1 = kv.1) ∨ ∃ r ∈ rows, key r = some kv.1 := by
  induction rows generalizing acc with
  | nil => exact Or.inl ⟨kv, h, rfl⟩
  | cons r rs ih =>
    rw [List.foldl_cons] at h
    rcases ih _ h with ⟨p, hp, he⟩ | ⟨r0, hr0, hk0⟩
    · cases hk : key r with
      | none =>
        simp only [groupStep, hk] at hp
        exact Or.inl ⟨p, hp, he⟩
      | some k =>
        simp only [groupStep, hk] at hp
        rcases mem_addToGroups_key k (val r) acc hp with h1 | ⟨q, hq, he2⟩
        · refine Or.inr ⟨r, List.mem_cons_self r rs, ?_⟩
          rw [hk, ← he, h1]
        · exact Or.inl ⟨q, hq, he2.trans he⟩
    · exact Or.inr ⟨r0, List.mem_cons_of_mem r hr0, hk0⟩

/-! ## Claim C10: empty streaming glob aborts the run -/

/-- C10: if no file matches `Streaming_History*.json`, `pd.concat` on the
empty list of frames raises and the whole run aborts before any report is
produced, whatever the playlist and search-query feeds hold. -/
theorem c10_no_streaming_files_aborts (pls : List Playlist)
    (mk : List PlayRow → Table) (s : SearchTable) :
    runPipeline [] pls mk s = .error "ValueError: No objects to concatenate" := rfl

/-! ## Claim C1: null group keys are dropped by the grouping -/

/-- C1 counterexample: a table with a single row whose artist (the group
key) is null. The claim says the null key forms its own group, so the
grouped result would be non-empty; the code's `groupby` (pandas default
`dropna=True`) drops the row and both the grouped result and the top-K
output are empty. -/
theorem c1_null_group_dropped_cex :
    groupbySum (fun r => r.artist) (fun r => r.minutes) [mkRow 0 5 none] = [] ∧
    topKByGroup (fun r => r.artist) (fun r => r.minutes) [mkRow 0 5 none] = [] :=
  ⟨rfl, rfl⟩

/-- C1 (amended): rows whose group-key value is null are silently dropped
from the aggregation (pandas `groupby` default `dropna=True`): every group
key comes from some row with that non-null key, and the aggregated total
is the total over exactly the rows with a non-null key. -/
theorem c1_null_keys_dropped (key : PlayRow → Option String) (val : PlayRow → ℚ)
    (rows : List PlayRow) :
    (∀ kv ∈ groupbySum key val rows, kv.1 ∈ rows.filterMap key) ∧
    ((groupbySum key val rows).map (fun kv => kv.2)).sum
      = ((rows.filter (fun r => (key r).isSome)).map val).sum := by
  constructor
  · intro kv h
    rcases groupbySum_go_keys key val rows [] h with ⟨p, hp, _⟩ | ⟨r, hr, hk⟩
    · exact absurd hp (List.not_mem_nil p)
    · exact List.mem_filterMap.mpr ⟨r, hr, hk⟩
  · simpa using groupbySum_go_sum key val rows []

/-- C1 amended-claim witness at a concrete table. -/
theorem c1_null_keys_dropped_witness :
    ("A" : String) ∈ [mkRow 0 1 (some "A"), mkRow 0 5 none].filterMap (fun r => r.artist) ∧
    ((groupbySum (fun r => r.artist) (fun r => r.minutes)
        [mkRow 0 1 (some "A"), mkRow 0 5 none]).map (fun kv => kv.2)).sum
      = (([mkRow 0 1 (some "A"), mkRow 0 5 none].filter
          (fun r => r.artist.isSome)).map (fun r => r.minutes)).sum :=
  ⟨(c1_null_keys_dropped (fun r => r.artist) (fun r => r.minutes) _).1 ("A", 1) (by decide),
   (c1_null_keys_dropped (fun r => r.artist) (fun r => r.minutes) _).2⟩

/-! ## Claim C5: an unparseable timestamp aborts the build -/

/-- C5 counterexample: a record whose timestamp string does not parse.
The claim says the row is kept with null temporal fields; the code's
`pd.to_datetime` (default `errors="raise"`) raises instead and no fact
table is produced. -/
theorem c5_parse_failure_cex :
    (buildFactTable
      [{ ts := "not a timestamp", ms_played := 1000, artist := some "X",
         track := none, episodeShow := none, audiobookTitle := none,
         platform := none, shuffle := none }]).isOk = false := rfl

/-- C5 (amended): a raw record whose timestamp string fails to parse makes
`pd.to_datetime` raise, so the fact-table build (and with it the run)
aborts; no row survives with null temporal fields. -/
theorem c5_parse_failure_aborts (recs : List RawRecord)
    (h : ∃ r ∈ recs, parseTS r.ts = none) :
    (buildFactTable recs).isOk = false := by
  induction recs with
  | nil => simp at h
  | cons r rs ih =>
    obtain ⟨r0, hr0, hp⟩ := h
    rcases List.mem_cons.mp hr0 with rfl | hmem
    · simp only [buildFactTable, hp]; rfl
    · cases hq : parseTS r.ts with
      | none => simp only [buildFactTable, hq]; rfl
      | some t =>
        have hrest := ih ⟨r0, hmem, hp⟩
        cases hb : buildFactTable rs with
        | error e => simp only [buildFactTable, hq, hb]; rfl
        | ok l => rw [hb] at hrest; exact absurd hrest (by simp [Except.isOk, Except.toBool])

/-- C5 amended-claim witness at a concrete record list. -/
theorem c5_parse_failure_aborts_witness :
    (buildFactTable
      [{ ts := "2023-01-05T10:00:00Z", ms_played := 60000, artist := some "X",
         track := none, episodeShow := none, audiobookTitle := none,
         platform := none, shuffle := none },
       { ts := "garbage", ms_played := 1000, artist := some "X",
         track := none, episodeShow := none, audiobookTitle := none,
         platform := none, shuffle := none }]).isOk = false :=
  c5_parse_failure_aborts _ (by decide)

/-! ## Claim C8: minutes are exactly ms / 60000 -/

/-- C8: summing `minutes_played` over the fact table equals the sum of the
raw `ms_played` divided by 60000, exactly (modelled in `ℚ`); and the
concrete scenario: two streaming-history files, each one record with
`ms_played = 180000` for artist `X`, produce the combined top-artist entry
`("X", 6)` over a table of 2 rows (play count 2). -/
theorem c8_minutes_roundtrip :
    (∀ (recs : List RawRecord) (rows : List PlayRow),
      buildFactTable recs = .ok rows →
        (rows.map (fun r => r.minutes)).sum
          = ((recs.map (fun r => r.ms_played)).sum : ℚ) / 60000) ∧
    (do
      let raw ← concatStreaming
        [[{ ts := "2023-01-05T10:00:00Z", ms_played := 180000, artist := some "X",
            track := none, episodeShow := none, audiobookTitle := none,
            platform := none, shuffle := none }],
         [{ ts := "2023-02-06T11:30:00Z", ms_played := 180000, artist := some "X",
            track := none, episodeShow := none, audiobookTitle := none,
            platform := none, shuffle := none }]]
      let tbl ← buildFactTable raw
      pure (topKByGroup (fun r => r.artist) (fun r => r.minutes) tbl, tbl.length))
      = Except.ok ([("X", (6 : ℚ))], 2) := by
  constructor
  · intro recs
    induction recs with
    | nil =>
      intro rows h
      simp only [buildFactTable] at h
      cases h
      simp
    | cons r rs ih =>
      intro rows h
      cases hq : parseTS r.ts with
      | none => rw [buildFactTable, hq] at h; cases h
      | some t =>
        rw [buildFactTable, hq] at h
        cases hb : buildFactTable rs with
        | error e => rw [hb] at h; cases h
        | ok rest =>
          rw [hb] at h
          cases h
          have := ih rest hb
          simp only [List.map_cons, List.sum_cons, this]
          rw [div_add_div_same]
  · rfl

/-- Concrete records for the C8 round-trip witness: timestamps parse to
epoch minute 0, `ms_played` 180000 and 30000. -/
def c8recs : List RawRecord :=
  [{ ts := "0000-01-01T00:00:00Z", ms_played := 180000, artist := some "X",
     track := none, episodeShow := none, audiobookTitle := none,
     platform := none, shuffle := none },
   { ts := "0000-01-01T00:00:00Z", ms_played := 30000, artist := none,
     track := none, episodeShow := none, audiobookTitle := none,
     platform := none, shuffle := none }]

/-- C8 witness for the round-trip conjunct at a concrete record list. -/
theorem c8_minutes_roundtrip_witness :
    ([mkRow 0 3 (some "X"), mkRow 0 (1/2) none].map (fun r => r.minutes)).sum
        = ((c8recs.map (fun r => r.ms_played)).sum : ℚ) / 60000 :=
  c8_minutes_roundtrip.1 c8recs [mkRow 0 3 (some "X"), mkRow 0 (1/2) none] rfl

/-! ## Claim C2: guarded sections never raise -/

lemma lookup_merge_map (a b : List (String × JValue)) (k : String) :
    List.lookup k (a.map (fun kv => (kv.1, (List.lookup kv.1 b).getD kv.2)))
      = (List.lookup k a).map (fun v => (List.lookup k b).getD v) := by
  induction a with
  | nil => rfl
  | cons x rest ih =>
    obtain ⟨k0, v0⟩ := x
    by_cases h : k == k0
    · have hk : k = k0 := eq_of_beq h
      subst hk
      simp [List.lookup]
    · simp [List.lookup, h, ih]

lemma lookup_filter_of_key (p : String × JValue → Bool) (b : List (String × JValue))
    (k : String) (hp : ∀ kv : String × JValue, kv.1 = k → p kv = true) :
    List.lookup k (b.filter p) = List.lookup k b := by
  induction b with
  | nil => rfl
  | cons x rest ih =>
    obtain ⟨k0, v0⟩ := x
    by_cases h : k == k0
    · have hk : k = k0 := eq_of_beq h
      subst hk
      rw [List.filter_cons, hp (k, v0) rfl]
      simp [List.lookup]
    · rw [List.filter_cons]
      cases hpx : p (k0, v0)
      · rw [if_neg (fun hc => Bool.noConfusion hc)]
        rw [ih]
        simp [List.lookup, h]
      · rw [if_pos rfl]
        simp [List.lookup, h, ih]

lemma lookup_append_pairs (l1 l2 : List (String × JValue)) (k : String) :
    List.lookup k (l1 ++ l2) = (List.lookup k l1).or (List.lookup k l2) := by
  induction l1 with
  | nil => simp [List.lookup]
  | cons x rest ih =>
    obtain ⟨k0, v0⟩ := x
    by_cases h : k == k0
    · simp [List.lookup, h]
    · simp [List.lookup, h, ih]

/-- Python's `{**a, **b}`: any key's value is `b`'s when `b` has the key,
otherwise `a`'s. -/
lemma lookup_mergeDicts (a b : List (String × JValue)) (k : String) :
    List.lookup k (mergeDicts a b) = (List.lookup k b).or (List.lookup k a) := by
  unfold mergeDicts
  rw [lookup_append_pairs, lookup_merge_map]
  cases ha : List.lookup k a with
  | none =>
    rw [lookup_filter_of_key _ _ _ (fun kv hk => by rw [hk, ha]; rfl)]
    cases hb : List.lookup k b <;> simp [Option.or]
  | some v =>
    cases hb : List.lookup k b <;> simp [Option.or, hb]

/-- C7: for every playlist and mapping-shaped item whose `track` value
splices (absent or a mapping), the flattened row is the playlist metadata
merged with the track fields, track fields winning on key collision. -/
theorem c7_row_is_meta_merge_track (p : Playlist) (fs tf : List (String × JValue))
    (h : trackFieldsE fs = .ok tf) :
    itemRows (playlistMeta p) [JValue.obj fs] = .ok [mergeDicts (playlistMeta p) tf] ∧
    ∀ k, List.lookup k (mergeDicts (playlistMeta p) tf)
        = (List.lookup k tf).or (List.lookup k (playlistMeta p)) := by
  constructor
  · simp [itemRows, h, bind, Except.bind]
  · intro k
    exact lookup_mergeDicts (playlistMeta p) tf k

/-- C7 witness at a concrete playlist and item. -/
theorem c7_row_is_meta_merge_track_witness :
    (itemRows (playlistMeta [("name", JValue.str "A")])
        [JValue.obj [("track", JValue.obj [("trackName", JValue.str "T1")])]]
      = .ok [mergeDicts (playlistMeta [("name", JValue.str "A")])
               [("trackName", JValue.str "T1")]]) ∧
    List.lookup "name" (mergeDicts (playlistMeta [("name", JValue.str "A")])
        [("trackName", JValue.str "T1")])
      = (List.lookup "name" [("trackName", JValue.str "T1")]).or
          (List.lookup "name" (playlistMeta [("name", JValue.str "A")])) :=
  ⟨(c7_row_is_meta_merge_track [("name", JValue.str "A")]
      [("track", JValue.obj [("trackName", JValue.str "T1")])]
      [("trackName", JValue.str "T1")] rfl).1,
   (c7_row_is_meta_merge_track [("name", JValue.str "A")]
      [("track", JValue.obj [("trackName", JValue.str "T1")])]
      [("trackName", JValue.str "T1")] rfl).2 "name"⟩

lemma itemRows_count (meta : List (String × JValue)) (items : List JValue)
    (h : ∀ it ∈ items, itemOK it = true) :
    ∃ rows, itemRows meta items = .ok rows ∧ rows.length = items.countP isObjItem := by
  induction items with
  | nil => exact ⟨[], rfl, rfl⟩
  | cons it rest ih =>
    obtain ⟨rows, hr, hl⟩ := ih (fun x hx => h x (List.mem_cons_of_mem _ hx))
    cases it with
    | obj fs =>
      have hok := h (.obj fs) (List.mem_cons_self _ _)
      have hex : ∃ tf, trackFieldsE fs = .ok tf := by
        simp only [itemOK] at hok
        unfold trackFieldsE
        cases hl2 : List.lookup "track" fs with
        | none => exact ⟨[], rfl⟩
        | some v =>
          rw [hl2] at hok
          cases v <;> first | exact ⟨_, rfl⟩ | exact absurd hok (by simp)
      obtain ⟨tf, htf⟩ := hex
      refine ⟨mergeDicts meta tf :: rows, ?_, ?_⟩
      · simp [itemRows, htf, hr, bind, Except.bind]
      · simp [List.countP_cons, isObjItem, hl]
    | null =>
      exact ⟨rows, by simpa [itemRows] using hr, by simp [List.countP_cons, isObjItem, hl]⟩
    | bool b =>
      exact ⟨rows, by simpa [itemRows] using hr, by simp [List.countP_cons, isObjItem, hl]⟩
    | num n =>
      exact ⟨rows, by simpa [itemRows] using hr, by simp [List.countP_cons, isObjItem, hl]⟩
    | str s =>
      exact ⟨rows, by simpa [itemRows] using hr, by simp [List.countP_cons, isObjItem, hl]⟩
    | arr xs =>
      exact ⟨rows, by simpa [itemRows] using hr, by simp [List.countP_cons, isObjItem, hl]⟩

/-- The playlist of the C6 scenario:
`{"name":"A","items":[{"track":{"trackName":"T1","artistName":"X"}}, "bad_item"]}`. -/
def c6playlist : Playlist :=
  [("name", JValue.str "A"),
   ("items", JValue.arr
     [JValue.obj [("track", JValue.obj
        [("trackName", JValue.str "T1"), ("artistName", JValue.str "X")])],
      JValue.str "bad_item"])]

/-- C6 counterexample: a playlist with a single mapping-shaped item whose
`track` value is a string. The claim says every mapping-shaped item yields
exactly one row; the code's `{**playlist_meta, **track_data}` raises
`TypeError` on the non-mapping `track_data` instead, so no rows at all are
produced. -/
theorem c6_flattener_cex :
    (playlistRecords
      [[("name", JValue.str "A"),
        ("items", JValue.arr [JValue.obj [("track", JValue.str "oops")]])]]).isOk
      = false := rfl

/-- C6 (amended): for playlists all of whose mapping-shaped items carry a
spliceable `track` value (absent or a mapping), the flattener yields
exactly one row per mapping-shaped item after normalizing `items`
(a single mapping counts as one item, a non-list/non-mapping value as
zero), silently skipping non-mapping items; a mapping-shaped item whose
`track` value is present and not a mapping instead raises `TypeError`.
The claim's scenario playlist yields exactly its one merged row. -/
theorem c6_flattener_row_count :
    (∀ pls : List Playlist, (∀ p ∈ pls, ∀ it ∈ normItems p, itemOK it = true) →
      ∃ rows, playlistRecords pls = .ok rows ∧
        rows.length = (pls.map (fun p => (normItems p).countP isObjItem)).sum) ∧
    playlistRecords [c6playlist] = .ok
      [[("name", JValue.str "A"), ("lastModifiedDate", JValue.null),
        ("collaborators", JValue.null),
        ("trackName", JValue.str "T1"), ("artistName", JValue.str "X")]] := by
  constructor
  · intro pls
    induction pls with
    | nil => exact fun _ => ⟨[], rfl, rfl⟩
    | cons p ps ih =>
      intro h
      obtain ⟨rows1, h1, hl1⟩ :=
        itemRows_count (playlistMeta p) (normItems p) (h p (List.mem_cons_self _ _))
      obtain ⟨rows2, h2, hl2⟩ := ih (fun q hq it hit => h q (List.mem_cons_of_mem _ hq) it hit)
      refine ⟨rows1 ++ rows2, ?_, ?_⟩
      · simp [playlistRecords, h1, h2, bind, Except.bind]
      · simp [hl1, hl2]
  · rfl

/-- C6 amended-claim witness at the scenario playlist list. -/
theorem c6_flattener_row_count_witness :
    ∃ rows, playlistRecords [c6playlist] = .ok rows ∧
      rows.length = ([c6playlist].map (fun p => (normItems p).countP isObjItem)).sum :=
  c6_flattener_row_count.1 [c6playlist] (by decide)

/-! ## Claim C3: daily resampling is contiguous and zero-filled -/

lemma foldl_min_le_init (l : List Nat) (a : Nat) : l.foldl Nat.min a ≤ a := by
  induction l generalizing a with
  | nil => simp
  | cons x xs ih =>
    rw [List.foldl_cons]
    exact le_trans (ih (Nat.min a x)) (Nat.min_le_left a x)

lemma foldl_min_le_mem (l : List Nat) (a x : Nat) (h : x ∈ l) : l.foldl Nat.min a ≤ x := by
  induction l generalizing a with
  | nil => cases h
  | cons y ys ih =>
    rw [List.foldl_cons]
    rcases List.mem_cons.mp h with rfl | hm
    · exact le_trans (foldl_min_le_init ys _) (Nat.min_le_right a x)
    · exact ih _ hm

lemma le_foldl_max_init (l : List Nat) (a : Nat) : a ≤ l.foldl Nat.max a := by
  induction l generalizing a with
  | nil => simp
  | cons x xs ih =>
    rw [List.foldl_cons]
    exact le_trans (Nat.le_max_left a x) (ih (Nat.max a x))

lemma le_foldl_max_mem (l : List Nat) (a x : Nat) (h : x ∈ l) : x ≤ l.foldl Nat.max a := by
  induction l generalizing a with
  | nil => cases h
  | cons y ys ih =>
    rw [List.foldl_cons]
    rcases List.mem_cons.mp h with rfl | hm
    · exact le_trans (Nat.le_max_right a x) (le_foldl_max_init ys _)
    · exact ih _ hm

lemma minDay_le (rows : List PlayRow) (r : PlayRow) (h : r ∈ rows) :
    minDay rows ≤ dayOf r.ts := by
  cases rows with
  | nil => cases h
  | cons r0 rs =>
    rcases List.mem_cons.mp h with rfl | hm
    · exact foldl_min_le_init _ _
    · exact foldl_min_le_mem _ _ _ (List.mem_map.mpr ⟨r, hm, rfl⟩)

lemma le_maxDay (rows : List PlayRow) (r : PlayRow) (h : r ∈ rows) :
    dayOf r.ts ≤ maxDay rows := by
  cases rows with
  | nil => cases h
  | cons r0 rs =>
    rcases List.mem_cons.mp h with rfl | hm
    · exact le_foldl_max_init _ _
    · exact le_foldl_max_mem _ _ _ (List.mem_map.mpr ⟨r, hm, rfl⟩)

/-- C3: for a non-empty fact table, `resample("D").sum()` produces one
bucket per calendar day: the bucket keys are exactly the contiguous range
from the earliest day to the latest day (consecutive entries differ by
one day), every row's day lies in that range, and a day in range with no
rows appears with sum `0` rather than being omitted. -/
theorem c3_daily_resample_contiguous (rows : List PlayRow) (h : rows ≠ []) :
    (dailyMinutes rows).map Prod.fst
        = List.range' (minDay rows) (maxDay rows - minDay rows + 1) ∧
    (∀ r ∈ rows, minDay rows ≤ dayOf r.ts ∧ dayOf r.ts ≤ maxDay rows) ∧
    (∀ i (hi : i + 1 < (dailyMinutes rows).length),
        ((dailyMinutes rows).get ⟨i + 1, hi⟩).1
          = ((dailyMinutes rows).get ⟨i, Nat.lt_of_succ_lt hi⟩).1 + 1) ∧
    (∀ d, minDay rows ≤ d → d ≤ maxDay rows →
        (∀ r ∈ rows, dayOf r.ts ≠ d) → (d, (0 : ℚ)) ∈ dailyMinutes rows) := by
  have hdef : dailyMinutes rows
      = (List.range (maxDay rows - minDay rows + 1)).map
          (fun i => (minDay rows + i, daySum rows (minDay rows + i))) := by
    cases rows with
    | nil => exact absurd rfl h
    | cons r0 rs => rfl
  have hfst : (dailyMinutes rows).map Prod.fst
      = List.range' (minDay rows) (maxDay rows - minDay rows + 1) := by
    rw [hdef, List.map_map, List.range'_eq_map_range]
    rfl
  refine ⟨hfst, fun r hr => ⟨minDay_le rows r hr, le_maxDay rows r hr⟩, ?_, ?_⟩
  · intro i hi
    have hlen : (dailyMinutes rows).length = maxDay rows - minDay rows + 1 := by
      rw [hdef]; simp
    have hget : ∀ j (hj : j < (dailyMinutes rows).length),
        ((dailyMinutes rows).get ⟨j, hj⟩).1 = minDay rows + j := by
      intro j hj
      have h1 : ((dailyMinutes rows).map Prod.fst).get ⟨j, by simpa using hj⟩
          = ((dailyMinutes rows).get ⟨j, hj⟩).1 := by
        simp
      rw [← h1, List.get_of_eq hfst]
      exact List.getElem_range'_1 _ _
    rw [hget, hget]
    omega
  · intro d h1 h2 h3
    rw [hdef]
    refine List.mem_map.mpr ⟨d - minDay rows, List.mem_range.mpr (by omega), ?_⟩
    have he : minDay rows + (d - minDay rows) = d := by omega
    rw [he]
    have hz : daySum rows d = 0 := by
      unfold daySum
      have : rows.filter (fun x => dayOf x.ts = d) = [] :=
        List.filter_eq_nil_iff.mpr (fun a ha => by simp [h3 a ha])
      rw [this]
      rfl
    rw [hz]

/-- Two play events on day 0 and day 2: day 1 must be zero-filled. -/
def c3rows : List PlayRow := [mkRow 0 2 none, mkRow 2880 1 none]

/-- C3 witness at a concrete two-row table spanning three days. -/
theorem c3_daily_resample_contiguous_witness :
    (dailyMinutes c3rows).map Prod.fst
        = List.range' (minDay c3rows) (maxDay c3rows - minDay c3rows + 1) ∧
    ((1 : Nat), (0 : ℚ)) ∈ dailyMinutes c3rows :=
  ⟨(c3_daily_resample_contiguous c3rows (by decide)).1,
   (c3_daily_resample_contiguous c3rows (by decide)).2.2.2 1 (by decide) (by decide)
     (by decide)⟩

/-! ## Claim C4: tie order in the descending sort -/

lemma charListLt_trans : ∀ {a b c : List Char},
    charListLt a b = true → charListLt b c = true → charListLt a c = true := by
  intro a
  induction a with
  | nil =>
    intro b c h1 h2
    cases b with
    | nil => simp [charListLt] at h1
    | cons y bs =>
      cases c with
      | nil => simp [charListLt] at h2
      | cons z cs => rfl
  | cons x as ih =>
    intro b c h1 h2
    cases b with
    | nil => simp [charListLt] at h1
    | cons y bs =>
      cases c with
      | nil => simp [charListLt] at h2
      | cons z cs =>
        simp only [charListLt] at h1 h2 ⊢
        by_cases hxy : x < y
        · by_cases hyz : y < z
          · rw [if_pos (lt_trans hxy hyz)]
          · rw [if_neg hyz] at h2
            by_cases hzy : z < y
            · rw [if_pos hzy] at h2; cases h2
            · rw [if_neg hzy] at h2
              have : y = z := le_antisymm (not_lt.mp hzy) (not_lt.mp hyz)
              subst this
              rw [if_pos hxy]
        · rw [if_neg hxy] at h1
          by_cases hyx : y < x
          · rw [if_pos hyx] at h1; cases h1
          · rw [if_neg hyx] at h1
            have hxy2 : x = y := le_antisymm (not_lt.mp hyx) (not_lt.mp hxy)
            subst hxy2
            by_cases hyz : x < z
            · rw [if_pos hyz]
            · rw [if_neg hyz] at h2 ⊢
              by_cases hzy : z < x
              · rw [if_pos hzy] at h2; cases h2
              · rw [if_neg hzy] at h2 ⊢
                exact ih h1 h2

lemma charListLt_total : ∀ (a b : List Char),
    a = b ∨ charListLt a b = true ∨ charListLt b a = true := by
  intro a
  induction a with
  | nil =>
    intro b
    cases b with
    | nil => exact Or.inl rfl
    | cons y bs => exact Or.inr (Or.inl rfl)
  | cons x as ih =>
    intro b
    cases b with
    | nil => exact Or.inr (Or.inr rfl)
    | cons y bs =>
      rcases lt_trichotomy x y with hlt | heq | hgt
      · refine Or.inr (Or.inl ?_)
        simp only [charListLt]
        rw [if_pos hlt]
      · subst heq
        rcases ih bs with rfl | hab | hba
        · exact Or.inl rfl
        · refine Or.inr (Or.inl ?_)
          simp only [charListLt]
          rw [if_neg (lt_irrefl x), if_neg (lt_irrefl x)]
          exact hab
        · refine Or.inr (Or.inr ?_)
          simp only [charListLt]
          rw [if_neg (lt_irrefl x), if_neg (lt_irrefl x)]
          exact hba
      · refine Or.inr (Or.inr ?_)
        simp only [charListLt]
        rw [if_pos hgt]

lemma strLt_trans {a b c : String} (h1 : strLt a b = true) (h2 : strLt b c = true) :
    strLt a c = true := charListLt_trans h1 h2

lemma strLt_total (a b : String) (h : a ≠ b) :
    strLt a b = true ∨ strLt b a = true := by
  rcases charListLt_total a.data b.data with he | hab | hba
  · exact absurd (by cases a; cases b; exact congrArg String.mk (by simpa using he)) h
  · exact Or.inl hab
  · exact Or.inr hba

lemma mem_insertByVal {z x : String × ℚ} {l : List (String × ℚ)} :
    z ∈ insertByVal x l ↔ z = x ∨ z ∈ l := by
  induction l with
  | nil => simp [insertByVal]
  | cons y ys ih =>
    simp only [insertByVal]
    by_cases h : x.2 ≤ y.2
    · rw [if_pos h]
      simp [List.mem_cons]
    · rw [if_neg h]
      rw [List.mem_cons, ih, List.mem_cons]
      tauto

lemma mem_sortByValAsc {z : String × ℚ} {l : List (String × ℚ)} :
    z ∈ sortByValAsc l ↔ z ∈ l := by
  induction l with
  | nil => simp [sortByValAsc]
  | cons x xs ih =>
    show z ∈ insertByVal x (sortByValAsc xs) ↔ _
    rw [mem_insertByVal, ih, List.mem_cons]

/-- C4 counterexample: two artists with equal aggregated minutes, first
seen in the order `A`, `B`. The claim says the top-K output preserves the
first-seen order `[("A", 1), ("B", 1)]`; the code's
`groupby(...).sum().sort_values(ascending=False)` sorts the group keys and
reverses, producing `[("B", 1), ("A", 1)]` (at two elements numpy's
argsort takes its insertion-sort path, so the model is exact here). -/
theorem c4_first_seen_tiebreak_cex :
    topKByGroup (fun r => r.artist) (fun r => r.minutes)
        [mkRow 0 1 (some "A"), mkRow 1 1 (some "B")] = [("B", 1), ("A", 1)] ∧
    topKByGroup (fun r => r.artist) (fun r => r.minutes)
        [mkRow 0 1 (some "A"), mkRow 1 1 (some "B")] ≠ [("A", 1), ("B", 1)] := by
  constructor
  · decide
  · decide

lemma charListLt_irrefl (a : List Char) : charListLt a a = false := by
  induction a with
  | nil => rfl
  | cons x as ih =>
    simp only [charListLt]
    rw [if_neg (lt_irrefl x), if_neg (lt_irrefl x)]
    exact ih

lemma strLt_irrefl (a : String) : strLt a a = false := charListLt_irrefl a.data

lemma strLt_asymm {a b : String} (h : strLt a b = true) : ¬strLt b a = true := by
  intro hc
  have h2 := strLt_trans h hc
  rw [strLt_irrefl] at h2
  cases h2

lemma strLt_ne {a b : String} (h : strLt a b = true) : a ≠ b := by
  rintro rfl
  rw [strLt_irrefl] at h
  cases h

/-- Adding two observations to the accumulator commutes: the grouped
result does not depend on the order rows arrive in. -/
lemma addToGroups_comm (k1 k2 : String) (v1 v2 : ℚ) (acc : List (String × ℚ)) :
    addToGroups k2 v2 (addToGroups k1 v1 acc)
      = addToGroups k1 v1 (addToGroups k2 v2 acc) := by
  induction acc with
  | nil =>
    by_cases e : k2 = k1
    · subst e
      simp [addToGroups, add_comm]
    · by_cases l : strLt k2 k1 = true
      · simp [addToGroups, e, l, Ne.symm e, strLt_asymm l]
      · have l2 : strLt k1 k2 = true := by
          rcases strLt_total k2 k1 e with h | h
          · exact absurd h l
          · exact h
        simp [addToGroups, e, l, Ne.symm e, l2]
  | cons x rest ih =>
    obtain ⟨k', v'⟩ := x
    by_cases e1 : k1 = k'
    · subst e1
      by_cases e2 : k2 = k1
      · subst e2
        simp [addToGroups, add_comm, add_left_comm, add_assoc]
      · by_cases l2 : strLt k2 k1 = true
        · simp [addToGroups, e2, l2, Ne.symm e2, strLt_asymm l2]
        · simp [addToGroups, e2, l2, Ne.symm e2]
    · by_cases l1 : strLt k1 k' = true
      · by_cases e2 : k2 = k'
        · subst e2
          simp [addToGroups, e1, l1, Ne.symm e1, strLt_asymm l1]
        · by_cases l2 : strLt k2 k' = true
          · by_cases e12 : k2 = k1
            · subst e12
              simp [addToGroups, e1, l1, add_comm]
            · by_cases l12 : strLt k2 k1 = true
              · simp [addToGroups, e1, l1, e2, l2, e12, l12, Ne.symm e12, strLt_asymm l12]
              · have l21 : strLt k1 k2 = true := by
                  rcases strLt_total k2 k1 e12 with h | h
                  · exact absurd h l12
                  · exact h
                simp [addToGroups, e1, l1, e2, l2, e12, l12, Ne.symm e12, l21]
          · have e12 : ¬k2 = k1 := fun he => by
              rw [he] at l2
              exact l2 l1
            have l12 : ¬strLt k2 k1 = true := fun hc => l2 (strLt_trans hc l1)
            simp [addToGroups, e1, l1, e2, l2, e12, l12]
      · have l1' : strLt k' k1 = true := by
          rcases strLt_total k1 k' e1 with h | h
          · exact absurd h l1
          · exact h
        by_cases e2 : k2 = k'
        · subst e2
          simp [addToGroups, e1, l1, Ne.symm e1]
        · by_cases l2 : strLt k2 k' = true
          · have e21 : ¬k1 = k2 := fun he => by
              rw [he] at l1
              exact l1 l2
            have l21 : ¬strLt k1 k2 = true := fun hc => l1 (strLt_trans hc l2)
            simp [addToGroups, e1, l1, e2, l2, e21, l21]
          · simp [addToGroups, e1, l1, e2, l2, ih]

/-- One `groupby` fold step is right-commutative: the order rows arrive
in cannot influence the grouped series. -/
lemma groupStep_comm (key : PlayRow → Option String) (val : PlayRow → ℚ)
    (acc : List (String × ℚ)) (r1 r2 : PlayRow) :
    groupStep key val (groupStep key val acc r1) r2
      = groupStep key val (groupStep key val acc r2) r1 := by
  unfold groupStep
  cases h1 : key r1 with
  | none => cases h2 : key r2 <;> rfl
  | some k1 =>
    cases h2 : key r2 with
    | none => rfl
    | some k2 => exact addToGroups_comm k1 k2 (val r1) (val r2) acc

/-- The grouped series is invariant under permuting the input rows. -/
lemma groupbySum_perm (key : PlayRow → Option String) (val : PlayRow → ℚ)
    {rows rows' : List PlayRow} (p : rows.Perm rows') :
    groupbySum key val rows = groupbySum key val rows' := by
  unfold groupbySum
  haveI : RightCommutative (groupStep key val) :=
    ⟨fun acc r1 r2 => groupStep_comm key val acc r1 r2⟩
  exact p.foldl_eq []

/-- Inserting keeps the values ascending (true of any correct sort). -/
lemma insertByVal_sorted (x : String × ℚ) (l : List (String × ℚ))
    (h : l.Pairwise (fun a b => a.2 ≤ b.2)) :
    (insertByVal x l).Pairwise (fun a b => a.2 ≤ b.2) := by
  induction l with
  | nil => simp [insertByVal]
  | cons y ys ih =>
    rw [List.pairwise_cons] at h
    obtain ⟨hhead, htail⟩ := h
    simp only [insertByVal]
    by_cases hle : x.2 ≤ y.2
    · rw [if_pos hle]
      refine List.pairwise_cons.mpr ⟨?_, List.pairwise_cons.mpr ⟨hhead, htail⟩⟩
      intro z hz
      rcases List.mem_cons.mp hz with rfl | hm
      · exact hle
      · exact le_trans hle (hhead z hm)
    · rw [if_neg hle]
      refine List.pairwise_cons.mpr ⟨?_, ih htail⟩
      intro z hz
      rcases mem_insertByVal.mp hz with rfl | hm
      · exact le_of_lt (lt_of_not_le hle)
      · exact hhead z hm

/-- The ascending value sort really sorts ascending. -/
lemma sortByValAsc_sorted (l : List (String × ℚ)) :
    (sortByValAsc l).Pairwise (fun a b => a.2 ≤ b.2) := by
  induction l with
  | nil => exact List.Pairwise.nil
  | cons x xs ih =>
    show (insertByVal x (sortByValAsc xs)).Pairwise _
    exact insertByVal_sorted x _ ih

/-- C4 (amended): the tie-break among equal aggregated values is NOT the
first-seen (insertion) order: `groupby(sort=True)` re-keys the groups in
sorted key order, so the top-K output is invariant under permuting the
input rows — first-seen order cannot influence it, and in particular
cannot decide the order of equal-valued groups. The output is
deterministic (a function of the grouped series) and sorted
non-increasing by aggregated value; which of two equal-valued groups
comes first is an implementation detail of numpy's unstable argsort, not
a stable first-seen rule. -/
theorem c4_tiebreak_not_first_seen (key : PlayRow → Option String)
    (val : PlayRow → ℚ) :
    (∀ rows rows' : List PlayRow, rows.Perm rows' →
      topKByGroup key val rows = topKByGroup key val rows') ∧
    (∀ rows : List PlayRow,
      (topKByGroup key val rows).Pairwise (fun a b => b.2 ≤ a.2)) := by
  constructor
  · intro rows rows' p
    unfold topKByGroup
    rw [groupbySum_perm key val p]
  · intro rows
    have h1 := sortByValAsc_sorted (groupbySum key val rows)
    have h2 : (sortValuesDesc (groupbySum key val rows)).Pairwise
        (fun a b => b.2 ≤ a.2) := by
      unfold sortValuesDesc
      rw [List.pairwise_reverse]
      exact h1
    exact h2.sublist (List.take_sublist 10 _)

/-- C4 amended-claim witness: swapping the two tied rows (reversing
first-seen order) leaves the output unchanged, and the output values are
non-increasing. -/
theorem c4_tiebreak_not_first_seen_witness :
    topKByGroup (fun r => r.artist) (fun r => r.minutes)
        [mkRow 0 1 (some "A"), mkRow 1 1 (some "B")]
      = topKByGroup (fun r => r.artist) (fun r => r.minutes)
        [mkRow 1 1 (some "B"), mkRow 0 1 (some "A")] ∧
    (topKByGroup (fun r => r.artist) (fun r => r.minutes)
        [mkRow 0 1 (some "A"), mkRow 1 1 (some "B")]).Pairwise
      (fun a b => b.2 ≤ a.2) :=
  ⟨(c4_tiebreak_not_first_seen (fun r => r.artist) (fun r => r.minutes)).1
      [mkRow 0 1 (some "A"), mkRow 1 1 (some "B")]
      [mkRow 1 1 (some "B"), mkRow 0 1 (some "A")] (by decide),
   (c4_tiebreak_not_first_seen (fun r => r.artist) (fun r => r.minutes)).2
      [mkRow 0 1 (some "A"), mkRow 1 1 (some "B")]⟩

/-! ## Claim C9: RankWithinGroup assigns a permutation of 1..N -/

lemma rankBefore_trans {vals : List ℚ} {i j k : Fin vals.length}
    (h1 : rankBefore vals i j) (h2 : rankBefore vals j k) : rankBefore vals i k := by
  unfold rankBefore at h1 h2 ⊢
  rcases h1 with h1 | ⟨he1, hl1⟩
  · rcases h2 with h2 | ⟨he2, hl2⟩
    · exact Or.inl (lt_trans h2 h1)
    · exact Or.inl (he2 ▸ h1)
  · rcases h2 with h2 | ⟨he2, hl2⟩
    · exact Or.inl (lt_of_lt_of_le h2 (le_of_eq he1.symm))
    · exact Or.inr ⟨he1.trans he2, lt_trans hl1 hl2⟩

lemma rankBefore_irrefl {vals : List ℚ} (i : Fin vals.length) : ¬rankBefore vals i i := by
  unfold rankBefore
  rintro (h | ⟨_, h⟩) <;> exact lt_irrefl _ h

lemma rankBefore_total {vals : List ℚ} {i j : Fin vals.length} (h : i ≠ j) :
    rankBefore vals i j ∨ rankBefore vals j i := by
  unfold rankBefore
  rcases lt_trichotomy (vals.get i) (vals.get j) with hv | hv | hv
  · exact Or.inr (Or.inl hv)
  · rcases lt_or_gt_of_ne (fun he => h (Fin.ext he)) with hij | hij
    · exact Or.inl (Or.inr ⟨hv, hij⟩)
    · exact Or.inr (Or.inr ⟨hv.symm, hij⟩)
  · exact Or.inl (Or.inl hv)

lemma rankOf_strict {vals : List ℚ} {i j : Fin vals.length}
    (h : rankBefore vals i j) : rankOf vals i < rankOf vals j := by
  unfold rankOf
  have hsub : insert i (Finset.univ.filter (fun k => rankBefore vals k i))
      ⊆ Finset.univ.filter (fun k => rankBefore vals k j) := by
    intro k hk
    rcases Finset.mem_insert.mp hk with rfl | hk2
    · exact Finset.mem_filter.mpr ⟨Finset.mem_univ _, h⟩
    · exact Finset.mem_filter.mpr
        ⟨Finset.mem_univ _, rankBefore_trans (Finset.mem_filter.mp hk2).2 h⟩
  have hnot : i ∉ Finset.univ.filter (fun k => rankBefore vals k i) := by
    intro hm
    exact rankBefore_irrefl i (Finset.mem_filter.mp hm).2
  have hcard := Finset.card_le_card hsub
  rw [Finset.card_insert_of_not_mem hnot] at hcard
  omega

lemma rankOf_le {vals : List ℚ} (i : Fin vals.length) : rankOf vals i ≤ vals.length := by
  unfold rankOf
  have hsub : (Finset.univ.filter (fun k => rankBefore vals k i))
      ⊆ Finset.univ.erase i := by
    intro k hk
    refine Finset.mem_erase.mpr ⟨?_, Finset.mem_univ _⟩
    rintro rfl
    exact rankBefore_irrefl k (Finset.mem_filter.mp hk).2
  have h2 := Finset.card_le_card hsub
  rw [Finset.card_erase_of_mem (Finset.mem_univ i), Finset.card_univ,
    Fintype.card_fin] at h2
  have h3 : 0 < vals.length := i.pos
  omega

lemma rankOf_injective (vals : List ℚ) : Function.Injective (rankOf vals) := by
  intro i j he
  by_contra hne
  rcases rankBefore_total hne with h | h
  · exact absurd he (Nat.ne_of_lt (rankOf_strict h))
  · exact absurd he.symm (Nat.ne_of_lt (rankOf_strict h))

/-- Modelled from the spec: for a fixed secondary-group (year) value, the
ranks `RankWithinGroup` assigns form a permutation of `1..N` with no
duplicates, ranking descending by the rank column, and equal values keep
their original relative order (first-seen tie-break). -/
theorem c9_rank_within_group_permutation (table : List (String × Int × ℚ)) (year : Int) :
    (rankWithinGroup table year).Nodup ∧
    (rankWithinGroup table year).toFinset = Finset.Icc 1 (yearVals table year).length ∧
    (∀ i j : Fin (yearVals table year).length, i < j →
        (yearVals table year).get i = (yearVals table year).get j →
        rankOf (yearVals table year) i < rankOf (yearVals table year) j) ∧
    (∀ i j : Fin (yearVals table year).length,
        (yearVals table year).get j < (yearVals table year).get i →
        rankOf (yearVals table year) i < rankOf (yearVals table year) j) := by
  set vals := yearVals table year with hvals
  have hnodup : (rankWithinGroup table year).Nodup := by
    unfold rankWithinGroup
    exact (List.nodup_finRange _).map (rankOf_injective _)
  refine ⟨hnodup, ?_, ?_, ?_⟩
  · have hlen : (rankWithinGroup table year).length = vals.length := by
      unfold rankWithinGroup
      simp
    have hsub : (rankWithinGroup table year).toFinset ⊆ Finset.Icc 1 vals.length := by
      intro a ha
      rw [List.mem_toFinset] at ha
      unfold rankWithinGroup at ha
      obtain ⟨i, _, rfl⟩ := List.mem_map.mp ha
      exact Finset.mem_Icc.mpr ⟨Nat.le_add_right 1 _, rankOf_le i⟩
    refine (Finset.eq_of_subset_of_card_le hsub ?_)
    rw [List.toFinset_card_of_nodup hnodup, hlen, Nat.card_Icc]
    omega
  · intro i j hij he
    exact rankOf_strict (Or.inr ⟨he, hij⟩)
  · intro i j hv
    exact rankOf_strict (Or.inl hv)

/-- Concrete table for the C9 witness: three 2023 rows with a tie. -/
def c9table : List (String × Int × ℚ) :=
  [("A", 2023, 3), ("B", 2023, 3), ("C", 2023, 5), ("D", 2022, 1)]

/-- C9 witness at the concrete table: ranks are duplicate-free, cover
1..3, and the tied pair keeps input order. -/
theorem c9_rank_within_group_permutation_witness :
    (rankWithinGroup c9table 2023).Nodup ∧
    (rankWithinGroup c9table 2023).toFinset = Finset.Icc 1 (yearVals c9table 2023).length ∧
    rankOf (yearVals c9table 2023) ⟨0, by decide⟩
      < rankOf (yearVals c9table 2023) ⟨1, by decide⟩ :=
  ⟨(c9_rank_within_group_permutation c9table 2023).1,
   (c9_rank_within_group_permutation c9table 2023).2.1,
   (c9_rank_within_group_permutation c9table 2023).2.2.1 ⟨0, by decide⟩ ⟨1, by decide⟩
     (by decide) (by decide)⟩
